import Mathlib

/-!
Verification development for the anrmap repository (similar-artist graph
builder, CSV export, Last.fm / Spotify rate-limited request gates).

Modelling conventions:
* JavaScript strings are Lean `String`; `String.toLowerCase` is modelled by
  `lowerName` (character-wise lowercasing on the underlying character list).
* JavaScript numbers (float64 similarity scores) are modelled by an abstract
  linearly ordered field `α`; the repository is the instance `α := ℝ`, with
  `Math.sqrt` as `Real.sqrt`.  All score arithmetic the claims mention
  (products, `Math.min`, comparisons with the constants 0.5 and 0.1) is exact.
  The literal `0.1` is written `1/10` and `0.5` is written `1/2`.
* Asynchronous fetches are modelled by a pure environment `Env`: a fetch that
  rejects is `none`, a fetch that resolves is `some`.  `Promise.all` over pure
  fetches is just a `List.map`.
* A JavaScript `Map` built by successive `set` calls is modelled as a function
  `String → Option α` built by a fold, where later insertions shadow earlier
  ones, exactly like `Map.set`.
-/

/-- Character-wise lowercase, modelling the JavaScript `toLowerCase()` used for
name normalization throughout the repository. -/
def lowerName (s : String) : String := String.mk (s.data.map Char.toLower)

/-- Artist record produced by `LastFmService.getArtistInfo`
(src/backend/src/services/lastfm.js, result object of `getArtistInfo`). -/
structure ArtistInfo where
  name : String
  listeners : Nat
  playcount : Nat
  url : String
  image : String
  bio : String
  tags : List String
deriving DecidableEq

/-- One entry of a `getSimilarArtists` response: the candidate name together
with the `match` score parsed by the service.  The JSON field is called
`match`, which is a Lean keyword, hence `matchScore`.  The `mbid`/`url`/`image`
fields of the entry are never read by the graph builder and are omitted. -/
structure SimilarEntry (α : Type) where
  name : String
  matchScore : α
deriving DecidableEq

/-- Response shape of `LastFmService.getSimilarArtists`:
`{ artist, similar: [...] }`. -/
structure SimilarData (α : Type) where
  artist : String
  similar : List (SimilarEntry α)
deriving DecidableEq

/-- The similarity data client as seen by the graph builder: the two fetches of
`fastify.lastfm`.  A rejected promise is `none`. -/
structure Env (α : Type) where
  getArtistInfo : String → Option ArtistInfo
  getSimilarArtists : String → Nat → Option (SimilarData α)

/-- Graph node as produced by `createArtistNode` (src/unnamed/part_002 lines
354-389).  The `size` field (display size, a log-scaled function of listener
count, see `displaySize`) and the `data` block (a verbatim duplicate of the
listed fields for the cytoscape frontend) are not modelled: no claim concerns
them and they never feed back into the algorithm. -/
structure GraphNode where
  id : String
  name : String
  listeners : Nat
  playcount : Nat
  url : String
  image : String
  bio : String
  tags : List String
  primaryGenre : String
  isRoot : Bool
  hopLevel : Nat
deriving DecidableEq

/-- Graph edge `{ id, source, target, match, weight }`; the JSON field `match`
is rendered `matchScore`. -/
structure GraphEdge (α : Type) where
  id : String
  source : String
  target : String
  matchScore : α
  weight : α
deriving DecidableEq

/-- The `stats` block of a build result. -/
structure BuildStats where
  totalNodes : Nat
  totalEdges : Nat
  rootArtist : String
deriving DecidableEq

/-- Result of `buildArtistGraph` in src/unnamed/part_002: `{nodes, edges,
stats}`. -/
structure BuildResult (α : Type) where
  nodes : List GraphNode
  edges : List (GraphEdge α)
  stats : BuildStats
deriving DecidableEq

/-- A plain `{nodes, edges}` graph, as posted to the CSV export route and as
returned by the export-route duplicate of the builder. -/
structure Graph (α : Type) where
  nodes : List GraphNode
  edges : List (GraphEdge α)
deriving DecidableEq

/-- `createArtistNode(artistInfo, isRoot, hopLevel)` (src/unnamed/part_002
lines 354-389).  `primaryGenre` is `artistInfo.tags?.[0] || "unknown"` (JS single quotes rendered double here): the
first tag unless the tag list is empty or its first element is the empty
string (falsy in JavaScript). -/
def createArtistNode (artistInfo : ArtistInfo) (isRoot : Bool) (hopLevel : Nat) :
    GraphNode :=
  let primaryGenre :=
    match artistInfo.tags.head? with
    | some t => if t = "" then "unknown" else t
    | none => "unknown"
  { id := artistInfo.name
    name := artistInfo.name
    listeners := artistInfo.listeners
    playcount := artistInfo.playcount
    url := artistInfo.url
    image := artistInfo.image
    bio := artistInfo.bio
    tags := artistInfo.tags
    primaryGenre := primaryGenre
    isRoot := isRoot
    hopLevel := hopLevel }

/-- The display size computed inside `createArtistNode`:
`Math.min(60, 20 + Math.log10(listeners || 1) * 5)`.  Kept as a standalone
function of the listener count; see the comment on `GraphNode`. -/
noncomputable def displaySize (listeners : Nat) : ℝ :=
  min 60 (20 + Real.logb 10 (if listeners = 0 then 1 else listeners) * 5)

section Builder

variable {α : Type} [LinearOrderedField α]

/-- The root similarity lookup of step 1 (src/unnamed/part_002 lines 161-164):
`rootSimilarityMap.set(similar.name.toLowerCase(), similar.match)` over the
root similarity list, later entries overwriting earlier ones. -/
def buildLookup (entries : List (SimilarEntry α)) : String → Option α :=
  entries.foldl
    (fun m e => fun k => if k = lowerName e.name then some e.matchScore else m k)
    (fun _ => none)

/-- Root-relative similarity for a hop-2 candidate (src/unnamed/part_002 lines
276-288).  The lookup result is tested for JavaScript truthiness
(`if (!rootSimilarity)`), so a present-but-zero score also falls through to the
indirect estimate `Math.min(0.5, Math.sqrt(rootMap(parent) * parentSim))`.
When the parent itself is missing from the lookup the JavaScript code computes
`Math.sqrt(undefined * x) = NaN`, the cap gives `NaN`, and the later threshold
comparison `NaN > 0.1` is false; modelling the missing lookup value as 0 gives
the same observable behaviour (the indirect value is then 0 and the threshold
comparison is false), which is what `Option.getD 0` encodes. -/
def computeRootSimilarity (sqrtFn : α → α) (rootMap : String → Option α)
    (resolvedName parentName : String) (parentSim : α) : α :=
  let indirect := min (1 / 2) (sqrtFn ((rootMap (lowerName parentName)).getD 0 * parentSim))
  match rootMap (lowerName resolvedName) with
  | some v => if v = 0 then indirect else v
  | none => indirect

/-- Mutable state of the builder: the `nodes` and `edges` arrays and the
`existingNames` set (insertion order kept, which is harmless for a set only
queried for membership). -/
structure BuildState (α : Type) where
  nodes : List GraphNode
  edges : List (GraphEdge α)
  existingNames : List String

/-- One iteration of the first-hop loop (src/unnamed/part_002 lines 190-206):
on a successful fetch whose resolved name differs from the root
case-insensitively, push a hop-1 node, record its lowercase name, and push the
root edge with the similarity taken from the root similarity list. -/
def firstHopStep (rootInfo : ArtistInfo) (st : BuildState α)
    (r : SimilarEntry α × Option ArtistInfo) : BuildState α :=
  match r.2 with
  | some info =>
    if lowerName info.name ≠ lowerName rootInfo.name then
      { nodes := st.nodes ++ [createArtistNode info false 1]
        edges := st.edges ++
          [{ id := rootInfo.name ++ "->" ++ info.name
             source := rootInfo.name
             target := info.name
             matchScore := r.1.matchScore
             weight := r.1.matchScore }]
        existingNames := st.existingNames ++ [lowerName info.name] }
    else st
  | none => st

/-- The whole first-hop phase: fold `firstHopStep` over the fetched results,
starting from the state holding only the root node (src/unnamed/part_002
lines 166-206). -/
def addFirstHop (rootInfo : ArtistInfo)
    (results : List (SimilarEntry α × Option ArtistInfo)) : BuildState α :=
  results.foldl (firstHopStep rootInfo)
    { nodes := [createArtistNode rootInfo true 0]
      edges := []
      existingNames := [lowerName rootInfo.name] }

/-- A selected hop-2 candidate (src/unnamed/part_002 lines 251-255). -/
structure Candidate (α : Type) where
  artistName : String
  parentNode : GraphNode
  parentSimilarity : α

/-- Selection accumulator: the selected candidates and the
`globalSeenNames` set. -/
structure SelState (α : Type) where
  selected : List (Candidate α)
  globalSeen : List String

/-- One iteration of the per-source candidate loop (src/unnamed/part_002 lines
240-261).  The JavaScript `break` once `addedFromSource >= 2` is modelled by
making every later iteration a no-op, which is equivalent because the counter
never decreases. -/
def selectStep (existingNames : List String) (sourceNode : GraphNode)
    (p : SelState α × Nat) (similar : SimilarEntry α) : SelState α × Nat :=
  if p.2 ≥ 2 then p
  else
    let lower := lowerName similar.name
    if lower ∉ existingNames ∧ lower ∉ p.1.globalSeen ∧
        lower ≠ lowerName sourceNode.name then
      ({ selected := p.1.selected ++
           [{ artistName := similar.name
              parentNode := sourceNode
              parentSimilarity := similar.matchScore }]
         globalSeen := p.1.globalSeen ++ [lower] }, p.2 + 1)
    else p

/-- Take up to 2 fresh candidates from one source similarity list. -/
def selectFromSource (existingNames : List String) (sourceNode : GraphNode)
    (entries : List (SimilarEntry α)) (acc : SelState α) : SelState α :=
  (entries.foldl (selectStep existingNames sourceNode) (acc, 0)).1

/-- Candidate selection over all expansion sources (src/unnamed/part_002 lines
213-267).  The batches of 4 in the source only group the concurrent
`getSimilarArtists` fetches; since the fetches are pure and the selection state
is threaded sequentially through the batches in source order, folding over the
sources one by one gives the identical result. -/
def selectCandidates (env : Env α) (existingNames : List String)
    (sources : List GraphNode) : SelState α :=
  sources.foldl
    (fun acc sourceNode =>
      match env.getSimilarArtists sourceNode.name 5 with
      | some similarData => selectFromSource existingNames sourceNode similarData.similar acc
      | none => acc)
    { selected := [], globalSeen := [] }

/-- The edges contributed by one successfully fetched hop-2 candidate
(src/unnamed/part_002 lines 312-334): always the path edge from the hop-1
parent carrying the source-relative score, plus the direct root edge carrying
the root-relative score when that score exceeds the 0.1 materiality
threshold. -/
def secondHopEdges (rootName : String) (rootSim : α) (c : Candidate α)
    (info : ArtistInfo) : List (GraphEdge α) :=
  let parentEdge : GraphEdge α :=
    { id := c.parentNode.name ++ "->" ++ info.name
      source := c.parentNode.name
      target := info.name
      matchScore := c.parentSimilarity
      weight := c.parentSimilarity }
  let rootEdge : GraphEdge α :=
    { id := rootName ++ "->" ++ info.name ++ "_root"
      source := rootName
      target := info.name
      matchScore := rootSim
      weight := rootSim }
  if rootSim > 1 / 10 then [parentEdge, rootEdge] else [parentEdge]

/-- One iteration of the hop-2 result loop (src/unnamed/part_002 lines
306-336): on success add the hop-2 node, record its name, and append the edge
or edges of `secondHopEdges`. -/
def secondHopStep (sqrtFn : α → α) (rootInfo : ArtistInfo)
    (rootMap : String → Option α) (st : BuildState α)
    (r : Candidate α × Option ArtistInfo) : BuildState α :=
  match r.2 with
  | some info =>
    let rootSim :=
      computeRootSimilarity sqrtFn rootMap info.name r.1.parentNode.name
        r.1.parentSimilarity
    { nodes := st.nodes ++ [createArtistNode info false 2]
      edges := st.edges ++ secondHopEdges rootInfo.name rootSim r.1 info
      existingNames := st.existingNames ++ [lowerName info.name] }
  | none => st

/-- The whole hop-2 result phase. -/
def addSecondHop (sqrtFn : α → α) (rootInfo : ArtistInfo)
    (rootMap : String → Option α)
    (results : List (Candidate α × Option ArtistInfo)) (st : BuildState α) :
    BuildState α :=
  results.foldl (secondHopStep sqrtFn rootInfo rootMap) st

/-- `buildArtistGraph(rootArtistName, depth, limit, fastify)` of the map route
(src/unnamed/part_002 lines 150-351), the optimized parallel builder with
root-relative hop-2 similarity.  Failure of either root fetch rejects the whole
build (`none`); per-item failures are absorbed by the steps above. -/
def buildArtistGraph (sqrtFn : α → α) (env : Env α) (rootArtistName : String)
    (depth limit : Nat) : Option (BuildResult α) :=
  let extendedLimit := if depth > 1 then min 100 (limit * 4) else limit
  match env.getArtistInfo rootArtistName,
      env.getSimilarArtists rootArtistName extendedLimit with
  | some rootInfo, some rootSimilar =>
    let rootSimilarityMap := buildLookup rootSimilar.similar
    let firstHopLimit := min limit rootSimilar.similar.length
    let firstHopResults :=
      (rootSimilar.similar.take firstHopLimit).map
        (fun s => (s, env.getArtistInfo s.name))
    let st1 := addFirstHop rootInfo firstHopResults
    let st2 :=
      if depth > 1 then
        let firstHopArtists := (st1.nodes.filter (fun n => !n.isRoot)).take 8
        let sel := selectCandidates env st1.existingNames firstHopArtists
        let secondHopResults :=
          sel.selected.map (fun c => (c, env.getArtistInfo c.artistName))
        addSecondHop sqrtFn rootInfo rootSimilarityMap secondHopResults st1
      else st1
    some { nodes := st2.nodes
           edges := st2.edges
           stats := { totalNodes := st2.nodes.length
                      totalEdges := st2.edges.length
                      rootArtist := rootInfo.name } }
  | _, _ => none

/-- The export-route duplicate `buildArtistGraph` (src/unnamed/part_003 lines
228-277; the copy in src/unnamed/part_002 lines 560-609 differs only in not
passing a hop level to `createArtistNode`).  It ignores `depth`, keys its
`processedArtists` set by the requested root name, and pushes every first-hop
edge with `source: rootArtistName` (the requested name) unconditionally, while
only pushing the node when its lowercase resolved name is fresh. -/
def buildArtistGraphExport (env : Env α) (rootArtistName : String)
    (depth limit : Nat) : Option (Graph α) :=
  let _ := depth
  match env.getArtistInfo rootArtistName,
      env.getSimilarArtists rootArtistName limit with
  | some rootInfo, some rootSimilar =>
    let firstHopResults :=
      rootSimilar.similar.filterMap
        (fun s =>
          match env.getArtistInfo s.name with
          | some info => some (info, s)
          | none => none)
    let st :=
      firstHopResults.foldl
        (fun (p : List GraphNode × List (GraphEdge α) × List String) r =>
          let nodes' :=
            if lowerName r.1.name ∈ p.2.2 then p.1
            else p.1 ++ [createArtistNode r.1 false 1]
          let processed' :=
            if lowerName r.1.name ∈ p.2.2 then p.2.2
            else p.2.2 ++ [lowerName r.1.name]
          (nodes',
            p.2.1 ++
              [{ id := rootArtistName ++ "->" ++ r.1.name
                 source := rootArtistName
                 target := r.1.name
                 matchScore := r.2.matchScore
                 weight := r.2.matchScore }],
            processed'))
        ([createArtistNode rootInfo true 0], [], [lowerName rootArtistName])
    some { nodes := st.1, edges := st.2.1 }
  | _, _ => none

end Builder

/-! ## CSV export (src/unnamed/part_003)

The export routes feed a graph to `generateCSV` (GET route, graph built
server-side) or `generateCSVFromGraph` (POST route, graph supplied in the
request body).  The two helper functions have identical bodies.  Scores coming
from a JSON request body are arbitrary finite numbers; they are modelled by ℚ
(every float64 value is rational, and the only operations performed on them —
comparison against the root name match, multiplication by 100 and rounding —
are exact). -/

/-- Orbit label of a node row, from the `switch (node.hopLevel)`. -/
def orbitLabel (hopLevel : Nat) : String :=
  match hopLevel with
  | 0 => "Root"
  | 1 => "1st Hop"
  | 2 => "2nd Hop"
  | _ => "Unknown"

/-- Digit grouping used by `toLocaleString` (en-US): groups of three from the
right, working on the reversed digit list. -/
def chunk3 : List Char → List (List Char)
  | [] => []
  | a :: b :: c :: rest => [a, b, c] :: chunk3 rest
  | l => [l]

/-- `num.toLocaleString()` for a natural number: decimal digits with comma
separators every three digits. -/
def commaSeparate (n : Nat) : String :=
  String.mk ((List.intercalate [','] (chunk3 (toString n).data.reverse)).reverse)

/-- `formatNumber` from the CSV generators: the string `0` for a missing or zero count,
otherwise `Math.floor(num).toLocaleString()` (the floor is the identity here
since listener and play counts are parsed integers). -/
def formatNumber (num : Nat) : String :=
  if num = 0 then "0" else commaSeparate num

/-- The similarity lookup map the CSV generators build from the edge list
(src/unnamed/part_003 lines 169-178): for each edge touching the root node by
exact name, store the score under the other endpoint, later edges overwriting
earlier ones. -/
def buildRootSimilarityMap (rootName : String) (edges : List (GraphEdge ℚ)) :
    String → Option ℚ :=
  edges.foldl
    (fun m e =>
      if e.source = rootName then
        fun k => if k = e.target then some e.matchScore else m k
      else if e.target = rootName then
        fun k => if k = e.source then some e.matchScore else m k
      else m)
    (fun _ => none)

/-- The key under which `buildRootSimilarityMap` stores an edge: the other
endpoint of an edge incident to the root node, mirroring the two branches of
the fold (an edge touching the root on neither side stores nothing). -/
def incidentKey (rootName : String) (e : GraphEdge ℚ) : Option String :=
  if e.source = rootName then some e.target
  else if e.target = rootName then some e.source
  else none

/-- Similarity-to-root of one node row (src/unnamed/part_003 lines 197-203):
1.0 for the root itself, otherwise `similarityMap.get(node.name) || 0`
(a missing or zero lookup both give 0). -/
def nodeSimilarityToRoot (simMap : String → Option ℚ) (node : GraphNode) : ℚ :=
  if node.isRoot then 1 else (simMap node.name).getD 0

/-- One CSV data row (src/unnamed/part_003 lines 181-221): quoted name, orbit,
formatted counts, genres joined by a comma and space, rounded percentage
similarity to root, and URL. -/
def csvRow (simMap : String → Option ℚ) (node : GraphNode) : String :=
  let similarityPercent :=
    toString (round (nodeSimilarityToRoot simMap node * 100)) ++ "%"
  String.intercalate ","
    [ "\"" ++ node.name ++ "\""
    , "\"" ++ orbitLabel node.hopLevel ++ "\""
    , "\"" ++ formatNumber node.listeners ++ "\""
    , "\"" ++ formatNumber node.playcount ++ "\""
    , "\"" ++ String.intercalate ", " node.tags ++ "\""
    , "\"" ++ similarityPercent ++ "\""
    , "\"" ++ node.url ++ "\"" ]

/-- The CSV header line. -/
def csvHeader : String :=
  "Artist Name,Orbit,Listeners,Plays,Genres,Similarity To Root,URL"

/-- `generateCSVFromGraph(graph)` (src/unnamed/part_003 lines 157-224): fail
when no node is marked as root, otherwise emit the header plus one row per
node, joined by newlines.  The thrown `Error` is modelled as `Except.error` of
its message. -/
def generateCSVFromGraph (graph : Graph ℚ) : Except String String :=
  match graph.nodes.find? (fun node => node.isRoot) with
  | none => Except.error "No root artist found in graph data"
  | some rootArtist =>
    let similarityMap := buildRootSimilarityMap rootArtist.name graph.edges
    Except.ok
      (String.intercalate "\n"
        (csvHeader :: graph.nodes.map (csvRow similarityMap)))

/-- `generateCSV(graph)` (src/unnamed/part_003 lines 87-154), whose body is
identical to `generateCSVFromGraph`. -/
def generateCSV (graph : Graph ℚ) : Except String String :=
  match graph.nodes.find? (fun node => node.isRoot) with
  | none => Except.error "No root artist found in graph data"
  | some rootArtist =>
    let similarityMap := buildRootSimilarityMap rootArtist.name graph.edges
    Except.ok
      (String.intercalate "\n"
        (csvHeader :: graph.nodes.map (csvRow similarityMap)))

/-! ## Last.fm service caching (src/backend/src/services/lastfm.js)

`getArtistInfo` and `getSimilarArtists` first look in the cache under a
normalized key and only on a miss place a request on the rate-limited queue.
The request/response mapping behind `makeRequest` and the JSON parsing are
plumbing outside these claims; they are abstracted as the `gate` function of
the environment, while the `enqueued` field of the result records exactly the
parameter objects pushed onto the rate-gate queue during the call.  The cached
payload type is abstract (`β`), since a hit returns the cached value as is. -/

/-- Parameters of one Last.fm API request placed on the rate-gate queue
(before the service adds `api_key` and `format`). -/
structure ApiParams where
  method : String
  artist : String
  limit : Option Nat
  autocorrect : Nat
deriving DecidableEq

/-- Environment of one service call: the cache content and the gated
request/parse pipeline. -/
structure LastFmEnv (β : Type) where
  cache : String → Option β
  gate : ApiParams → Except Nat β

/-- Observable outcome of one service call: the returned (or thrown) value,
the requests enqueued on the rate gate, and the cache afterwards. -/
structure SvcCall (β : Type) where
  result : Except Nat β
  enqueued : List ApiParams
  cacheAfter : String → Option β

/-- `LastFmService.getSimilarArtists(artistName, limit)` (lastfm.js lines
100-143): cache key `similar:<lowercase name>:<limit>`; on a hit return the
cached value without touching the queue; on a miss enqueue
`artist.getsimilar` with the limit capped at 100, and cache a successful
result for 24 hours. -/
def getSimilarArtistsSvc (env : LastFmEnv β) (artistName : String) (limit : Nat) :
    SvcCall β :=
  let cacheKey := "similar:" ++ lowerName artistName ++ ":" ++ toString limit
  match env.cache cacheKey with
  | some cached => { result := Except.ok cached, enqueued := [], cacheAfter := env.cache }
  | none =>
    let params : ApiParams :=
      { method := "artist.getsimilar", artist := artistName
        limit := some (min limit 100), autocorrect := 1 }
    match env.gate params with
    | Except.ok data =>
      { result := Except.ok data
        enqueued := [params]
        cacheAfter := fun k => if k = cacheKey then some data else env.cache k }
    | Except.error e =>
      { result := Except.error e, enqueued := [params], cacheAfter := env.cache }

/-- `LastFmService.getArtistInfo(artistName)` (lastfm.js lines 145-187):
cache key `info:<lowercase name>`, same shape as `getSimilarArtistsSvc`. -/
def getArtistInfoSvc (env : LastFmEnv β) (artistName : String) : SvcCall β :=
  let cacheKey := "info:" ++ lowerName artistName
  match env.cache cacheKey with
  | some cached => { result := Except.ok cached, enqueued := [], cacheAfter := env.cache }
  | none =>
    let params : ApiParams :=
      { method := "artist.getinfo", artist := artistName
        limit := none, autocorrect := 1 }
    match env.gate params with
    | Except.ok data =>
      { result := Except.ok data
        enqueued := [params]
        cacheAfter := fun k => if k = cacheKey then some data else env.cache k }
    | Except.error e =>
      { result := Except.error e, enqueued := [params], cacheAfter := env.cache }

/-! ## Rate-limited request gates

`SpotifyService.processQueue` (src/unnamed/part_000 lines 56-100) and
`LastFmService.processQueue` (lastfm.js lines 24-61) both drain a FIFO queue
one request at a time.  The outcome of dispatching a queued request is given by
an oracle indexed by the request and its attempt number (a retry is attempt
`k+1`); real-time waiting is not modelled, but the throttling cooldown the
Spotify loop performs before a retry is recorded as an explicit trace event
carrying its duration.  The Spotify loop requeues a throttled request at the
front (`unshift`); the Last.fm loop has no throttling branch at all — its
`catch` rejects the waiting caller for every error, throttling included. -/

/-- Outcome of dispatching one request to the external API. -/
inductive GateOutcome where
  | ok (resp : Nat)
  | rateLimited
  | fail (code : Nat)
deriving DecidableEq

/-- Observable events of a drain-loop run, in order. -/
inductive GateEvent where
  | resolved (req resp : Nat)
  | rejected (req code : Nat)
  | cooldown (ms : Nat)
deriving DecidableEq

/-- `minRequestInterval` of `SpotifyService` (600 ms). -/
def spotifyMinRequestInterval : Nat := 600

/-- The cooldown the Spotify drain loop sleeps after a 429 before retrying
(2000 ms). -/
def spotifyThrottleCooldown : Nat := 2000

/-- `minRequestInterval` of `LastFmService` (200 ms). -/
def lastfmMinRequestInterval : Nat := 200

/-- `SpotifyService.processQueue`: dequeue the front request; on a 429, sleep
the long cooldown and put the same request back at the front of the queue
(`this.requestQueue.unshift(...)`); on success or any other error resolve or
reject the waiting caller and move on.  `fuel` bounds the number of loop
iterations modelled. -/
def processQueueSpotify (oracle : Nat → Nat → GateOutcome) :
    Nat → List (Nat × Nat) → List GateEvent
  | 0, _ => []
  | _ + 1, [] => []
  | fuel + 1, (r, k) :: rest =>
    match oracle r k with
    | GateOutcome.ok v => GateEvent.resolved r v :: processQueueSpotify oracle fuel rest
    | GateOutcome.rateLimited =>
      GateEvent.cooldown spotifyThrottleCooldown ::
        processQueueSpotify oracle fuel ((r, k + 1) :: rest)
    | GateOutcome.fail c => GateEvent.rejected r c :: processQueueSpotify oracle fuel rest

/-- `LastFmService.processQueue`: dequeue the front request and either resolve
it or reject the waiting caller — the catch block is `reject(error)` with no
throttling special case, so a 429 rejects the caller with that status. -/
def processQueueLastfm (oracle : Nat → Nat → GateOutcome) :
    Nat → List (Nat × Nat) → List GateEvent
  | 0, _ => []
  | _ + 1, [] => []
  | fuel + 1, (r, k) :: rest =>
    match oracle r k with
    | GateOutcome.ok v => GateEvent.resolved r v :: processQueueLastfm oracle fuel rest
    | GateOutcome.rateLimited =>
      GateEvent.rejected r 429 :: processQueueLastfm oracle fuel rest
    | GateOutcome.fail c => GateEvent.rejected r c :: processQueueLastfm oracle fuel rest

/-! ## Concrete environments used to exercise the theorems on closed inputs -/

/-- A sample artist record with the given resolved name. -/
def mkInfo (n : String) : ArtistInfo :=
  { name := n, listeners := 1000, playcount := 2000
    url := "https://www.last.fm/music/" ++ n, image := "", bio := ""
    tags := ["rock"] }

/-- A small well-behaved environment over ℚ: the root resolves to `Root`, the
candidates `a` and `b` resolve (changing only letter case) to `A` and `B`, and
the candidate `x` fails to resolve. -/
def envHappy : Env ℚ where
  getArtistInfo := fun q =>
    if q = "root" then some (mkInfo "Root")
    else if q = "a" then some (mkInfo "A")
    else if q = "b" then some (mkInfo "B")
    else none
  getSimilarArtists := fun q _ =>
    if q = "root" then
      some { artist := "root"
             similar := [⟨"a", 9/10⟩, ⟨"x", 7/10⟩, ⟨"b", 6/10⟩] }
    else none

/-- Environment over ℝ in which the root query `abba` autocorrects to the
resolved name `ABBA`: the export-route builder then emits first-hop edges
whose `source` is the queried name `abba`, which names no node. -/
noncomputable def envAutoR : Env ℝ where
  getArtistInfo := fun q =>
    if q = "abba" then some (mkInfo "ABBA")
    else if q = "x" then some (mkInfo "X")
    else none
  getSimilarArtists := fun q _ =>
    if q = "abba" then some { artist := "abba", similar := [⟨"x", 9/10⟩] }
    else none

/-- Environment over ℝ in which two distinct similarity-list entries,
`Jay-Z` and `JAY Z`, both resolve to the artist `JAY-Z`. -/
noncomputable def envDupR : Env ℝ where
  getArtistInfo := fun q =>
    if q = "root" then some (mkInfo "Root")
    else if q = "Jay-Z" then some (mkInfo "JAY-Z")
    else if q = "JAY Z" then some (mkInfo "JAY-Z")
    else none
  getSimilarArtists := fun q _ =>
    if q = "root" then
      some { artist := "root", similar := [⟨"Jay-Z", 9/10⟩, ⟨"JAY Z", 8/10⟩] }
    else none

/-- Environment over ℝ in which the info fetch for the hop-1 candidate `x`
fails, while the other candidate `y` autocorrects to the resolved name `x`:
the failed candidate reappears in the build under its own name through the
alias. -/
noncomputable def envAliasR : Env ℝ where
  getArtistInfo := fun q =>
    if q = "root" then some (mkInfo "Root")
    else if q = "y" then some (mkInfo "x")
    else none
  getSimilarArtists := fun q _ =>
    if q = "root" then
      some { artist := "root", similar := [⟨"x", 9/10⟩, ⟨"y", 8/10⟩] }
    else none

/-- Cache environment for the Last.fm service model: two populated keys, and a
gate that would fail if it were ever consulted. -/
def lfEnvHit : LastFmEnv Nat where
  cache := fun k =>
    if k = "info:abba" then some 5
    else if k = "similar:abba:25" then some 9
    else none
  gate := fun _ => Except.error 0

/-- Dispatch oracle: request 0 is throttled on its first attempt and succeeds
with response 42 on the retry; every other request succeeds with response 7. -/
def oracleRetry : Nat → Nat → GateOutcome := fun r k =>
  if r = 0 then (if k = 0 then GateOutcome.rateLimited else GateOutcome.ok 42)
  else GateOutcome.ok 7

/-- Dispatch oracle: every request is throttled on its first attempt and would
succeed with response 7 on a retry. -/
def oracleThrottleOnce : Nat → Nat → GateOutcome := fun _ k =>
  if k = 0 then GateOutcome.rateLimited else GateOutcome.ok 7

/-- A node of the sample graph for the CSV theorems. -/
def nodeOf (n : String) (isRoot : Bool) (hop : Nat) : GraphNode :=
  createArtistNode (mkInfo n) isRoot hop

/-- Sample graph for the CSV theorems: a root `R`, a connected node `A`, and a
node `B` with no edge to the root. -/
def csvSample : Graph ℚ :=
  { nodes := [nodeOf "R" true 0, nodeOf "A" false 1, nodeOf "B" false 2]
    edges := [⟨"R->A", "R", "A", 42/100, 42/100⟩, ⟨"A->B", "A", "B", 3/10, 3/10⟩] }

/-- Sample graph with no root node. -/
def csvNoRoot : Graph ℚ :=
  { nodes := [nodeOf "A" false 1, nodeOf "B" false 2]
    edges := [⟨"A->B", "A", "B", 3/10, 3/10⟩] }

/-! ## Helper lemmas -/

/-- A `foldl` preserves every invariant preserved by its step function, where
the step may use membership of the element in the folded list. -/
theorem foldl_inv {β γ : Type*} {f : β → γ → β} {P : β → Prop} :
    ∀ (l : List γ) (st : β), (∀ st x, x ∈ l → P st → P (f st x)) → P st →
      P (l.foldl f st)
  | [], _, _, h => h
  | x :: l, st, hstep, h =>
    foldl_inv l (f st x)
      (fun st' y hy => hstep st' y (List.mem_cons_of_mem _ hy))
      (hstep st x (List.mem_cons_self _ _) h)

@[simp]
theorem createArtistNode_name (info : ArtistInfo) (b : Bool) (h : Nat) :
    (createArtistNode info b h).name = info.name := rfl

@[simp]
theorem createArtistNode_isRoot (info : ArtistInfo) (b : Bool) (h : Nat) :
    (createArtistNode info b h).isRoot = b := rfl

/-! ## C1: indirect root-relative similarity of hop-2 candidates -/

/-- C1.  In a depth-2 build, a selected hop-2 candidate whose resolved name is
absent from the root-similarity lookup of step 1 is assigned the root-relative
similarity `min(0.5, sqrt(s_rp * s_pc))`, where `s_rp` is the root score of the
hop-1 parent and `s_pc` the parent score of the candidate; at `s_rp = 0.8`,
`s_pc = 0.6` the cap binds and the value is exactly `0.5`. -/
theorem hop2_indirect_similarity (rootMap : String → Option ℝ)
    (resolvedName parentName : String) (srp spc : ℝ)
    (habsent : rootMap (lowerName resolvedName) = none)
    (hparent : rootMap (lowerName parentName) = some srp) :
    computeRootSimilarity Real.sqrt rootMap resolvedName parentName spc =
        min (1 / 2) (Real.sqrt (srp * spc)) ∧
      (srp = 0.8 → spc = 0.6 →
        computeRootSimilarity Real.sqrt rootMap resolvedName parentName spc = 0.5) := by
  have hval : computeRootSimilarity Real.sqrt rootMap resolvedName parentName spc =
      min (1 / 2) (Real.sqrt (srp * spc)) := by
    unfold computeRootSimilarity
    rw [habsent, hparent]
    rfl
  refine ⟨hval, fun h8 h6 => ?_⟩
  subst h8; subst h6
  rw [hval]
  have h48 : (0.8 : ℝ) * 0.6 = 0.48 := by norm_num
  rw [h48]
  have hle : (1 / 2 : ℝ) ≤ Real.sqrt 0.48 := by
    rw [Real.le_sqrt' (by norm_num)]
    norm_num
  rw [min_eq_left hle]
  norm_num

/-- Witness for C1 on a concrete lookup: the candidate `newkid` is missing
from the lookup, its parent `P` has root score 0.8, and the parent scores it
0.6; the assigned root-relative similarity is exactly 0.5. -/
theorem hop2_indirect_similarity_witness :
    computeRootSimilarity Real.sqrt
        (fun k => if k = "p" then some 0.8 else none) "newkid" "P" 0.6 = 0.5 :=
  (hop2_indirect_similarity (fun k => if k = "p" then some 0.8 else none)
    "newkid" "P" 0.8 0.6 rfl rfl).2 rfl rfl

/-! ## C10: a direct root score of exactly 0 falls through to the indirect
estimate -/

/-- C10.  Because presence in the root lookup is tested by JavaScript
truthiness rather than key membership, a hop-2 candidate whose direct root
score is exactly 0 is treated as absent: the builder assigns the indirect
geometric-mean estimate, the same value it assigns under any lookup in which
the key is missing and the parent score is unchanged. -/
theorem zero_root_score_falls_through {α : Type} [LinearOrderedField α]
    (sqrtFn : α → α) (rootMap : String → Option α)
    (resolvedName parentName : String) (spc : α)
    (hzero : rootMap (lowerName resolvedName) = some 0) :
    computeRootSimilarity sqrtFn rootMap resolvedName parentName spc =
        min (1 / 2) (sqrtFn ((rootMap (lowerName parentName)).getD 0 * spc)) ∧
      ∀ rootMap' : String → Option α,
        rootMap' (lowerName resolvedName) = none →
        rootMap' (lowerName parentName) = rootMap (lowerName parentName) →
        computeRootSimilarity sqrtFn rootMap resolvedName parentName spc =
          computeRootSimilarity sqrtFn rootMap' resolvedName parentName spc := by
  have hval : computeRootSimilarity sqrtFn rootMap resolvedName parentName spc =
      min (1 / 2) (sqrtFn ((rootMap (lowerName parentName)).getD 0 * spc)) := by
    unfold computeRootSimilarity
    rw [hzero]
    simp
  refine ⟨hval, fun rootMap' habsent hagree => ?_⟩
  rw [hval]
  unfold computeRootSimilarity
  rw [habsent, hagree]

/-- Witness for C10: a lookup containing the candidate with score exactly 0
yields the indirect estimate, here `min(1/2, 9/100 * 2) = 9/50`. -/
theorem zero_root_score_falls_through_witness :
    computeRootSimilarity (fun x : ℚ => x)
        (fun k => if k = "c" then some 0 else if k = "p" then some (9/100) else none)
        "C" "P" 2 = 9/50 := by
  have h := (zero_root_score_falls_through (fun x : ℚ => x)
    (fun k => if k = "c" then some 0 else if k = "p" then some (9/100) else none)
    "C" "P" 2 rfl).1
  rw [h]
  simp +decide [lowerName]
  rw [show (9/100 : ℚ) * 2 = 9/50 by norm_num, min_eq_right (by norm_num)]

/-! ## C7: CSV export of a rootless graph fails -/

/-- C7.  Both CSV generators fail with the explicit no-root-artist error, and
produce no tabular output, whenever no node of the input graph is marked
`isRoot`. -/
theorem csv_no_root_fails (g : Graph ℚ)
    (h : ∀ n ∈ g.nodes, n.isRoot = false) :
    generateCSVFromGraph g = Except.error "No root artist found in graph data" ∧
      generateCSV g = Except.error "No root artist found in graph data" := by
  have hfind : g.nodes.find? (fun node => node.isRoot) = none := by
    rw [List.find?_eq_none]
    intro n hn
    simp [h n hn]
  constructor
  · unfold generateCSVFromGraph
    rw [hfind]
  · unfold generateCSV
    rw [hfind]

/-- Witness for C7 on a concrete two-node rootless graph. -/
theorem csv_no_root_fails_witness :
    generateCSVFromGraph csvNoRoot =
        Except.error "No root artist found in graph data" ∧
      generateCSV csvNoRoot =
        Except.error "No root artist found in graph data" :=
  csv_no_root_fails csvNoRoot (by decide)

/-! ## C9: cache-first short circuit of the similarity data client -/

/-- C9.  Both service calls consult the cache under the normalized keys
`info:<lowercase name>` and `similar:<lowercase name>:<limit>`; on a hit they
return the cached value, enqueue nothing on the rate gate, and leave the cache
unchanged. -/
theorem cache_hit_short_circuits {β : Type} (env : LastFmEnv β)
    (name : String) (limit : Nat) (vI vS : β)
    (hI : env.cache ("info:" ++ lowerName name) = some vI)
    (hS : env.cache ("similar:" ++ lowerName name ++ ":" ++ toString limit) = some vS) :
    getArtistInfoSvc env name =
        { result := Except.ok vI, enqueued := [], cacheAfter := env.cache } ∧
      getSimilarArtistsSvc env name limit =
        { result := Except.ok vS, enqueued := [], cacheAfter := env.cache } := by
  constructor
  · simp only [getArtistInfoSvc]
    rw [hI]
  · simp only [getSimilarArtistsSvc]
    rw [hS]

/-- Witness for C9: with `info:abba` and `similar:abba:25` populated, the
calls for the differently-cased name `AbBa` return the cached values and
enqueue no request. -/
theorem cache_hit_short_circuits_witness :
    getArtistInfoSvc lfEnvHit "AbBa" =
        { result := Except.ok 5, enqueued := [], cacheAfter := lfEnvHit.cache } ∧
      getSimilarArtistsSvc lfEnvHit "AbBa" 25 =
        { result := Except.ok 9, enqueued := [], cacheAfter := lfEnvHit.cache } :=
  cache_hit_short_circuits lfEnvHit "AbBa" 25 5 9 rfl rfl

/-! ## C8: throttling behaviour of the rate-limited gates -/

/-- Generalized drain-loop run of the Spotify gate starting at attempt `j`:
`m` throttled attempts produce `m` cooldown events, after which the caller of
the front request receives the response of the successful retry and the rest
of the queue is processed unchanged. -/
theorem processQueueSpotify_retries (oracle : Nat → Nat → GateOutcome)
    (r v : Nat) (rest : List (Nat × Nat)) :
    ∀ (m j fuel : Nat), (∀ k, k < m → oracle r (j + k) = GateOutcome.rateLimited) →
      oracle r (j + m) = GateOutcome.ok v → m + 1 ≤ fuel →
      processQueueSpotify oracle fuel ((r, j) :: rest) =
        List.replicate m (GateEvent.cooldown spotifyThrottleCooldown) ++
          GateEvent.resolved r v :: processQueueSpotify oracle (fuel - (m + 1)) rest := by
  intro m
  induction m with
  | zero =>
    intro j fuel _ hok hfuel
    obtain ⟨f, rfl⟩ : ∃ f, fuel = f + 1 := ⟨fuel - 1, by omega⟩
    simp only [processQueueSpotify, Nat.add_zero] at *
    rw [hok]
    simp
  | succ m ih =>
    intro j fuel hthr hok hfuel
    obtain ⟨f, rfl⟩ : ∃ f, fuel = f + 1 := ⟨fuel - 1, by omega⟩
    have h0 : oracle r j = GateOutcome.rateLimited := by
      have := hthr 0 (by omega)
      simpa using this
    have hthr' : ∀ k, k < m → oracle r (j + 1 + k) = GateOutcome.rateLimited := by
      intro k hk
      have := hthr (k + 1) (by omega)
      rwa [show j + (k + 1) = j + 1 + k by omega] at this
    have hok' : oracle r (j + 1 + m) = GateOutcome.ok v := by
      rwa [show j + 1 + m = j + (m + 1) by omega]
    have step : processQueueSpotify oracle (f + 1) ((r, j) :: rest) =
        GateEvent.cooldown spotifyThrottleCooldown ::
          processQueueSpotify oracle f ((r, j + 1) :: rest) := by
      simp only [processQueueSpotify]
      rw [h0]
    rw [step, ih (j + 1) f hthr' hok' (by omega),
      show f + 1 - (m + 1 + 1) = f - (m + 1) by omega]
    simp [List.replicate_succ]

/-- C8 (amended).  In the Spotify gate, a request throttled `m` times is
requeued at the front each time (never dropped, never moved to the back): the
drain loop emits the long cooldown before every retry, the original caller
eventually receives the response of the successful retry, and the remaining
queue is then processed in its original order.  The throttling cooldown
(2000 ms) is longer than the normal inter-request spacing (600 ms).  The
Last.fm gate does not behave this way; see the counterexample. -/
theorem spotify_gate_requeues_front (oracle : Nat → Nat → GateOutcome)
    (r v m fuel : Nat) (rest : List (Nat × Nat))
    (hthr : ∀ k, k < m → oracle r k = GateOutcome.rateLimited)
    (hok : oracle r m = GateOutcome.ok v) (hfuel : m + 1 ≤ fuel) :
    processQueueSpotify oracle fuel ((r, 0) :: rest) =
        List.replicate m (GateEvent.cooldown spotifyThrottleCooldown) ++
          GateEvent.resolved r v :: processQueueSpotify oracle (fuel - (m + 1)) rest ∧
      spotifyMinRequestInterval < spotifyThrottleCooldown := by
  constructor
  · have := processQueueSpotify_retries oracle r v rest m 0 fuel
      (by intro k hk; simpa using hthr k hk) (by simpa using hok) hfuel
    simpa using this
  · decide

/-- Witness for C8: request 0 is throttled once, then succeeds with 42; the
caller behind it still receives 7 afterwards, in order. -/
theorem spotify_gate_requeues_front_witness :
    processQueueSpotify oracleRetry 5 [(0, 0), (1, 0)] =
        [GateEvent.cooldown spotifyThrottleCooldown, GateEvent.resolved 0 42,
          GateEvent.resolved 1 7] ∧
      spotifyMinRequestInterval < spotifyThrottleCooldown := by
  have h := spotify_gate_requeues_front oracleRetry 0 42 1 5 [(1, 0)]
    (by decide) (by decide) (by omega)
  refine ⟨?_, h.2⟩
  rw [h.1]
  rfl

/-- Counterexample for C8 as stated: in the Last.fm gate
(`LastFmService.processQueue`), a throttling response is not requeued at all —
the `catch` rejects the waiting caller with the 429 error, so the caller never
receives the response (7) that a retry would have produced. -/
theorem lastfm_gate_drops_throttled :
    processQueueLastfm oracleThrottleOnce 5 [(0, 0)] = [GateEvent.rejected 0 429] ∧
      GateEvent.resolved 0 7 ∉ processQueueLastfm oracleThrottleOnce 5 [(0, 0)] := by
  decide

/-! ## C2: edges contributed by one hop-2 node -/

/-- No string of the form `P ++ "->" ++ N` can equal one of the form
`R ++ "->" ++ N ++ "_root"` (character-list version).  If it did, comparing
lengths and prefixes forces `P = R ++ c` with `c` of length 5 starting with a
dash, and counting dashes on the remaining equation is then contradictory,
since `_root` contains none. -/
theorem arrowId_ne_rootId (P N R : List Char) :
    P ++ '-' :: '>' :: N ≠ R ++ '-' :: '>' :: (N ++ ['_', 'r', 'o', 'o', 't']) := by
  intro h
  have hlen := congrArg List.length h
  simp only [List.length_append, List.length_cons, List.length_nil] at hlen
  have hPR : P.length = R.length + 5 := by omega
  rcases List.append_eq_append_iff.mp h with ⟨a, _, ha2⟩ | ⟨c, hc1, hc2⟩
  · have := congrArg List.length ha2
    simp only [List.length_append, List.length_cons, List.length_nil] at this
    omega
  · have hclen : c.length = 5 := by
      have := congrArg List.length hc1
      simp only [List.length_append] at this
      omega
    cases c with
    | nil => simp at hclen
    | cons x xs =>
      have hc2' : '-' :: '>' :: (N ++ ['_', 'r', 'o', 'o', 't']) =
          x :: (xs ++ '-' :: '>' :: N) := hc2
      injection hc2' with hx htail
      subst hx
      have hcount := congrArg (List.count '-') hc2
      simp [List.count_cons, List.count_append] at hcount
      omega

/-- String version: the id of a hop-2 path edge can never collide with the id
of a hop-2 root edge, whatever the three artist names are. -/
theorem secondHop_ids_ne (p n r : String) :
    p ++ "->" ++ n ≠ r ++ "->" ++ n ++ "_root" := by
  intro h
  have hd := congrArg String.data h
  have harrow : ("->" : String).data = ['-', '>'] := rfl
  have hroot : ("_root" : String).data = ['_', 'r', 'o', 'o', 't'] := rfl
  simp only [String.data_append, harrow, hroot, List.append_assoc] at hd
  exact arrowId_ne_rootId p.data n.data r.data hd

/-- C2.  For a hop-2 candidate whose info fetch succeeds, the builder appends
exactly the edges of `secondHopEdges`: always the path edge from the hop-1
parent carrying the parent similarity, and a root edge carrying the
root-relative similarity exactly when that similarity is strictly greater than
0.1; the two edge ids always differ. -/
theorem hop2_edge_policy {α : Type} [LinearOrderedField α] (sqrtFn : α → α)
    (rootInfo : ArtistInfo) (rootMap : String → Option α) (st : BuildState α)
    (c : Candidate α) (info : ArtistInfo) (rs : α)
    (hrs : rs = computeRootSimilarity sqrtFn rootMap info.name c.parentNode.name
      c.parentSimilarity)
    (hparent : c.parentNode.name ≠ rootInfo.name) :
    (addSecondHop sqrtFn rootInfo rootMap [(c, some info)] st).edges =
        st.edges ++ secondHopEdges rootInfo.name rs c info ∧
      (∃ e ∈ secondHopEdges rootInfo.name rs c info,
        e.source = c.parentNode.name ∧ e.target = info.name ∧
          e.matchScore = c.parentSimilarity ∧
          e.id = c.parentNode.name ++ "->" ++ info.name) ∧
      ((∃ e ∈ secondHopEdges rootInfo.name rs c info,
          e.source = rootInfo.name ∧ e.target = info.name ∧ e.matchScore = rs) ↔
        1 / 10 < rs) ∧
      c.parentNode.name ++ "->" ++ info.name ≠
        rootInfo.name ++ "->" ++ info.name ++ "_root" := by
  subst hrs
  refine ⟨rfl, ?_, ?_, secondHop_ids_ne _ _ _⟩
  · unfold secondHopEdges
    by_cases h : computeRootSimilarity sqrtFn rootMap info.name c.parentNode.name
        c.parentSimilarity > 1 / 10
    · rw [if_pos h]
      exact ⟨_, List.mem_cons_self _ _, rfl, rfl, rfl, rfl⟩
    · rw [if_neg h]
      exact ⟨_, List.mem_cons_self _ _, rfl, rfl, rfl, rfl⟩
  · unfold secondHopEdges
    by_cases h : computeRootSimilarity sqrtFn rootMap info.name c.parentNode.name
        c.parentSimilarity > 1 / 10
    · rw [if_pos h]
      exact ⟨fun _ => h, fun _ => ⟨_, List.mem_cons_of_mem _ (List.mem_cons_self _ _),
        rfl, rfl, rfl⟩⟩
    · rw [if_neg h]
      constructor
      · rintro ⟨e, he, hsrc, -, -⟩
        rcases List.mem_singleton.mp he with rfl
        exact absurd hsrc hparent
      · intro hlt
        exact absurd hlt h

/-- Witness for C2: the hop-2 candidate `c` (parent `A` with parent score 3/5,
root score of the parent 4/5) gets its path edge always and its root edge
exactly when the computed root similarity exceeds 0.1, with distinct ids. -/
theorem hop2_edge_policy_witness :
    (addSecondHop (fun x : ℚ => x) (mkInfo "Root") (buildLookup [⟨"a", 4/5⟩])
          [(⟨"c", nodeOf "A" false 1, 3/5⟩, some (mkInfo "C"))]
          ⟨[], [], []⟩).edges =
        [] ++ secondHopEdges (mkInfo "Root").name
          (computeRootSimilarity (fun x : ℚ => x) (buildLookup [⟨"a", 4/5⟩])
            (mkInfo "C").name (nodeOf "A" false 1).name (3/5))
          ⟨"c", nodeOf "A" false 1, 3/5⟩ (mkInfo "C") ∧
      (∃ e ∈ secondHopEdges (mkInfo "Root").name
          (computeRootSimilarity (fun x : ℚ => x) (buildLookup [⟨"a", 4/5⟩])
            (mkInfo "C").name (nodeOf "A" false 1).name (3/5))
          ⟨"c", nodeOf "A" false 1, 3/5⟩ (mkInfo "C"),
        e.source = (nodeOf "A" false 1).name ∧ e.target = (mkInfo "C").name ∧
          e.matchScore = 3/5 ∧
          e.id = (nodeOf "A" false 1).name ++ "->" ++ (mkInfo "C").name) ∧
      ((∃ e ∈ secondHopEdges (mkInfo "Root").name
          (computeRootSimilarity (fun x : ℚ => x) (buildLookup [⟨"a", 4/5⟩])
            (mkInfo "C").name (nodeOf "A" false 1).name (3/5))
          ⟨"c", nodeOf "A" false 1, 3/5⟩ (mkInfo "C"),
          e.source = (mkInfo "Root").name ∧ e.target = (mkInfo "C").name ∧
            e.matchScore =
              computeRootSimilarity (fun x : ℚ => x) (buildLookup [⟨"a", 4/5⟩])
                (mkInfo "C").name (nodeOf "A" false 1).name (3/5)) ↔
        1 / 10 < computeRootSimilarity (fun x : ℚ => x) (buildLookup [⟨"a", 4/5⟩])
          (mkInfo "C").name (nodeOf "A" false 1).name (3/5)) ∧
      (nodeOf "A" false 1).name ++ "->" ++ (mkInfo "C").name ≠
        (mkInfo "Root").name ++ "->" ++ (mkInfo "C").name ++ "_root" :=
  hop2_edge_policy (fun x : ℚ => x) (mkInfo "Root") (buildLookup [⟨"a", 4/5⟩])
    ⟨[], [], []⟩ ⟨"c", nodeOf "A" false 1, 3/5⟩ (mkInfo "C") _ rfl (by decide)

/-! ## C6: similarity-to-root percentages in the CSV export -/

/-- Value of the similarity lookup map: the score of the last edge of the list
that is incident to the root and stores the queried key. -/
theorem buildRootSimilarityMap_spec (rootName : String) :
    ∀ (edges : List (GraphEdge ℚ)) (k : String),
      buildRootSimilarityMap rootName edges k =
        ((edges.filter (fun e => decide (incidentKey rootName e = some k))).getLast?).map
          (fun e => e.matchScore) := by
  have happend : ∀ (l : List (GraphEdge ℚ)) (e : GraphEdge ℚ) (k : String),
      buildRootSimilarityMap rootName (l ++ [e]) k =
        if incidentKey rootName e = some k then some e.matchScore
        else buildRootSimilarityMap rootName l k := by
    intro l e k
    unfold buildRootSimilarityMap incidentKey
    rw [List.foldl_append]
    simp only [List.foldl_cons, List.foldl_nil]
    by_cases h1 : e.source = rootName <;> by_cases h2 : e.target = rootName <;>
      by_cases h3 : k = e.target <;> by_cases h4 : k = e.source <;>
        simp [h1, h2, h3, h4] <;> simp_all [eq_comm]
  intro edges
  induction edges using List.reverseRecOn with
  | nil => intro k; rfl
  | append_singleton l e ih =>
    intro k
    rw [happend, List.filter_append]
    by_cases hinc : incidentKey rootName e = some k
    · rw [if_pos hinc]
      have hfe : List.filter (fun e => decide (incidentKey rootName e = some k)) [e] = [e] := by
        simp [hinc]
      rw [hfe, List.getLast?_concat]
      rfl
    · rw [if_neg hinc]
      have hfe : List.filter (fun e => decide (incidentKey rootName e = some k)) [e] = [] := by
        simp [hinc]
      rw [hfe, List.append_nil, ih]

/-- An edge stores key `k` exactly when it connects `k` to the root in either
direction. -/
theorem incidentKey_eq_some_iff (rootName k : String) (e : GraphEdge ℚ) :
    incidentKey rootName e = some k ↔
      ((e.source = rootName ∧ e.target = k) ∨
        (e.target = rootName ∧ e.source = k)) := by
  unfold incidentKey
  split_ifs with h1 h2
  · simp only [Option.some.injEq]
    constructor
    · intro hk; exact Or.inl ⟨h1, hk⟩
    · rintro (⟨-, hk⟩ | ⟨ht, hk⟩)
      · exact hk
      · rw [ht, ← hk, h1]
  · simp only [Option.some.injEq]
    constructor
    · intro hk; exact Or.inr ⟨h2, hk⟩
    · rintro (⟨hs, -⟩ | ⟨-, hk⟩)
      · exact absurd hs h1
      · exact hk
  · simp only [reduceCtorEq, false_iff]
    rintro (⟨hs, -⟩ | ⟨ht, -⟩)
    · exact h1 hs
    · exact h2 ht

/-- `List.find?` returns the unique element satisfying the predicate. -/
theorem find?_isRoot_unique :
    ∀ (l : List GraphNode) (root : GraphNode), root ∈ l → root.isRoot = true →
      (∀ n ∈ l, n.isRoot = true → n = root) →
      l.find? (fun n => n.isRoot) = some root := by
  intro l
  induction l with
  | nil => intro root h; exact absurd h (List.not_mem_nil _)
  | cons n l ih =>
    intro root hmem hroot huniq
    by_cases hn : n.isRoot = true
    · rw [List.find?_cons_of_pos _ (by simp [hn])]
      rw [huniq n (List.mem_cons_self _ _) hn]
    · rw [List.find?_cons_of_neg _ (by simp [hn])]
      have hroot_tail : root ∈ l := by
        rcases List.mem_cons.mp hmem with rfl | h
        · exact absurd hroot hn
        · exact h
      exact ih root hroot_tail hroot
        (fun m hm => huniq m (List.mem_cons_of_mem _ hm))

/-- C6.  For a graph with exactly one root node, `generateCSVFromGraph`
produces one row per node built from `nodeSimilarityToRoot`, and that value is
1 (rendered 100%) for the root itself, the score of some edge directly
connecting the node to the root (in either direction) when one exists, and 0
when no edge touches the root and the node. -/
theorem csv_similarity_to_root (g : Graph ℚ) (root : GraphNode)
    (hmem : root ∈ g.nodes) (hroot : root.isRoot = true)
    (huniq : ∀ n ∈ g.nodes, n.isRoot = true → n = root) :
    generateCSVFromGraph g =
        Except.ok (String.intercalate "\n"
          (csvHeader :: g.nodes.map
            (csvRow (buildRootSimilarityMap root.name g.edges)))) ∧
      ∀ n ∈ g.nodes,
        (n.isRoot = true →
          nodeSimilarityToRoot (buildRootSimilarityMap root.name g.edges) n = 1) ∧
        (n.isRoot = false →
          (∃ e ∈ g.edges,
            ((e.source = root.name ∧ e.target = n.name) ∨
              (e.target = root.name ∧ e.source = n.name)) ∧
            nodeSimilarityToRoot (buildRootSimilarityMap root.name g.edges) n =
              e.matchScore) ∨
          ((∀ e ∈ g.edges,
              ¬((e.source = root.name ∧ e.target = n.name) ∨
                (e.target = root.name ∧ e.source = n.name))) ∧
            nodeSimilarityToRoot (buildRootSimilarityMap root.name g.edges) n = 0)) := by
  have hfind : g.nodes.find? (fun n => n.isRoot) = some root :=
    find?_isRoot_unique g.nodes root hmem hroot huniq
  constructor
  · unfold generateCSVFromGraph
    rw [hfind]
  · intro n hn
    constructor
    · intro hr
      unfold nodeSimilarityToRoot
      rw [if_pos hr]
    · intro hr
      have hval : nodeSimilarityToRoot (buildRootSimilarityMap root.name g.edges) n =
          (buildRootSimilarityMap root.name g.edges n.name).getD 0 := by
        unfold nodeSimilarityToRoot
        rw [if_neg (by simp [hr])]
      rw [buildRootSimilarityMap_spec] at hval
      rcases hlast : (g.edges.filter
          (fun e => decide (incidentKey root.name e = some n.name))).getLast? with _ | e
      · right
        rw [hlast] at hval
        refine ⟨?_, by simpa using hval⟩
        intro e he hinc
        have : e ∈ g.edges.filter
            (fun e => decide (incidentKey root.name e = some n.name)) :=
          List.mem_filter.mpr ⟨he, by
            simp [(incidentKey_eq_some_iff root.name n.name e).mpr hinc]⟩
        rw [List.getLast?_eq_none_iff] at hlast
        rw [hlast] at this
        exact absurd this (List.not_mem_nil _)
      · left
        have hmf : e ∈ g.edges.filter
            (fun e => decide (incidentKey root.name e = some n.name)) :=
          List.mem_of_getLast?_eq_some hlast
        have hme := List.mem_filter.mp hmf
        refine ⟨e, hme.1, ?_, ?_⟩
        · exact (incidentKey_eq_some_iff root.name n.name e).mp (by simpa using hme.2)
        · rw [hlast] at hval
          simpa using hval

/-- Witness for C6 on `csvSample`: root `R`, node `A` connected with score
42/100, node `B` with no root edge. -/
theorem csv_similarity_to_root_witness :
    generateCSVFromGraph csvSample =
        Except.ok (String.intercalate "\n"
          (csvHeader :: csvSample.nodes.map
            (csvRow (buildRootSimilarityMap (nodeOf "R" true 0).name csvSample.edges)))) :=
  (csv_similarity_to_root csvSample (nodeOf "R" true 0) (by decide) (by decide)
    (by decide)).1

/-! ## C3: no dangling edges -/


/-- The first-hop fold preserves the presence of a node named after the root
and the property that every edge endpoint names some node. -/
theorem firstHop_covered {α : Type} [LinearOrderedField α] (rootInfo : ArtistInfo)
    (results : List (SimilarEntry α × Option ArtistInfo)) (st₀ : BuildState α)
    (hroot : ∃ n ∈ st₀.nodes, n.name = rootInfo.name)
    (hcov : ∀ e ∈ st₀.edges, (∃ n ∈ st₀.nodes, n.name = e.source) ∧
      ∃ n ∈ st₀.nodes, n.name = e.target) :
    (∃ n ∈ (results.foldl (firstHopStep rootInfo) st₀).nodes,
        n.name = rootInfo.name) ∧
      ∀ e ∈ (results.foldl (firstHopStep rootInfo) st₀).edges,
        (∃ n ∈ (results.foldl (firstHopStep rootInfo) st₀).nodes, n.name = e.source) ∧
          ∃ n ∈ (results.foldl (firstHopStep rootInfo) st₀).nodes, n.name = e.target := by
  refine foldl_inv
    (P := fun st => (∃ n ∈ st.nodes, n.name = rootInfo.name) ∧
      ∀ e ∈ st.edges, (∃ n ∈ st.nodes, n.name = e.source) ∧
        ∃ n ∈ st.nodes, n.name = e.target)
    results st₀ ?_ ⟨hroot, hcov⟩
  rintro st ⟨s, oi⟩ - ⟨⟨nr, hnr, hnrname⟩, hc⟩
  cases oi with
  | none => exact ⟨⟨nr, hnr, hnrname⟩, hc⟩
  | some info =>
    by_cases h : lowerName info.name ≠ lowerName rootInfo.name
    · simp only [firstHopStep, if_pos h]
      refine ⟨⟨nr, List.mem_append_left _ hnr, hnrname⟩, ?_⟩
      intro e he
      rcases List.mem_append.mp he with he | he
      · rcases hc e he with ⟨⟨n1, hn1, hn1n⟩, ⟨n2, hn2, hn2n⟩⟩
        exact ⟨⟨n1, List.mem_append_left _ hn1, hn1n⟩,
          ⟨n2, List.mem_append_left _ hn2, hn2n⟩⟩
      · rcases List.mem_singleton.mp he with rfl
        exact ⟨⟨nr, List.mem_append_left _ hnr, hnrname⟩,
          ⟨createArtistNode info false 1,
            List.mem_append_right _ (List.mem_singleton.mpr rfl), rfl⟩⟩
    · simp only [firstHopStep, if_neg h]
      exact ⟨⟨nr, hnr, hnrname⟩, hc⟩

/-- Candidates selected from one source either were already selected or have
that source as parent. -/
theorem selectFromSource_parent {α : Type} [LinearOrderedField α]
    (existingNames : List String) (src : GraphNode) :
    ∀ (entries : List (SimilarEntry α)) (p : SelState α × Nat) (c : Candidate α),
      c ∈ ((entries.foldl (selectStep existingNames src) p).1).selected →
      c ∈ p.1.selected ∨ c.parentNode = src := by
  intro entries
  induction entries with
  | nil => intro p c hc; exact Or.inl hc
  | cons e rest ih =>
    intro p c hc
    rw [List.foldl_cons] at hc
    rcases ih (selectStep existingNames src p e) c hc with h | h
    · unfold selectStep at h
      by_cases h1 : p.2 ≥ 2
      · rw [if_pos h1] at h
        exact Or.inl h
      · rw [if_neg h1] at h
        by_cases h2 : lowerName e.name ∉ existingNames ∧
            lowerName e.name ∉ p.1.globalSeen ∧
            lowerName e.name ≠ lowerName src.name
        · rw [if_pos h2] at h
          rcases List.mem_append.mp h with h | h
          · exact Or.inl h
          · rcases List.mem_singleton.mp h with rfl
            exact Or.inr rfl
        · rw [if_neg h2] at h
          exact Or.inl h
    · exact Or.inr h

/-- Every selected hop-2 candidate has one of the expansion sources as its
parent node. -/
theorem selectCandidates_parent {α : Type} [LinearOrderedField α] (env : Env α)
    (existingNames : List String) (sources : List GraphNode) :
    ∀ c ∈ (selectCandidates env existingNames sources).selected,
      c.parentNode ∈ sources := by
  unfold selectCandidates
  refine foldl_inv
    (P := fun (acc : SelState α) => ∀ c ∈ acc.selected, c.parentNode ∈ sources)
    sources ({ selected := [], globalSeen := [] } : SelState α) ?_ ?_
  · rintro acc src hsrc hacc c hc
    rcases hfetch : env.getSimilarArtists src.name 5 with _ | sd
    · rw [hfetch] at hc
      exact hacc c hc
    · rw [hfetch] at hc
      rcases selectFromSource_parent existingNames src sd.similar (acc, 0) c hc with h | h
      · exact hacc c h
      · rw [h]; exact hsrc
  · intro c hc
    exact absurd hc (List.not_mem_nil _)

/-- The hop-2 result fold preserves the covering invariant, provided every
result has its parent already present as a node. -/
theorem secondHop_covered {α : Type} [LinearOrderedField α] (sqrtFn : α → α)
    (rootInfo : ArtistInfo) (rootMap : String → Option α)
    (results : List (Candidate α × Option ArtistInfo)) (st₀ : BuildState α)
    (hroot : ∃ n ∈ st₀.nodes, n.name = rootInfo.name)
    (hcov : ∀ e ∈ st₀.edges, (∃ n ∈ st₀.nodes, n.name = e.source) ∧
      ∃ n ∈ st₀.nodes, n.name = e.target)
    (hpar : ∀ r ∈ results, ∃ n ∈ st₀.nodes, n.name = r.1.parentNode.name) :
    (∃ n ∈ (addSecondHop sqrtFn rootInfo rootMap results st₀).nodes,
        n.name = rootInfo.name) ∧
      ∀ e ∈ (addSecondHop sqrtFn rootInfo rootMap results st₀).edges,
        (∃ n ∈ (addSecondHop sqrtFn rootInfo rootMap results st₀).nodes,
            n.name = e.source) ∧
          ∃ n ∈ (addSecondHop sqrtFn rootInfo rootMap results st₀).nodes,
            n.name = e.target := by
  unfold addSecondHop
  have h := foldl_inv (f := secondHopStep sqrtFn rootInfo rootMap)
    (P := fun st =>
      ((∃ n ∈ st.nodes, n.name = rootInfo.name) ∧
        ∀ e ∈ st.edges, (∃ n ∈ st.nodes, n.name = e.source) ∧
          ∃ n ∈ st.nodes, n.name = e.target) ∧
      ∀ r ∈ results, ∃ n ∈ st.nodes, n.name = r.1.parentNode.name)
    results st₀ ?_ ⟨⟨hroot, hcov⟩, hpar⟩
  · exact ⟨h.1.1, h.1.2⟩
  · rintro st ⟨c, oi⟩ hrmem ⟨⟨⟨nr, hnr, hnrname⟩, hc⟩, hp⟩
    cases oi with
    | none => exact ⟨⟨⟨nr, hnr, hnrname⟩, hc⟩, hp⟩
    | some info =>
      simp only [secondHopStep]
      have hnew : (createArtistNode info false 2) ∈
          st.nodes ++ [createArtistNode info false 2] :=
        List.mem_append_right _ (List.mem_singleton.mpr rfl)
      rcases hp (c, some info) hrmem with ⟨np, hnp, hnpname⟩
      refine ⟨⟨⟨nr, List.mem_append_left _ hnr, hnrname⟩, ?_⟩, ?_⟩
      · intro e he
        rcases List.mem_append.mp he with he | he
        · rcases hc e he with ⟨⟨n1, hn1, hn1n⟩, ⟨n2, hn2, hn2n⟩⟩
          exact ⟨⟨n1, List.mem_append_left _ hn1, hn1n⟩,
            ⟨n2, List.mem_append_left _ hn2, hn2n⟩⟩
        · unfold secondHopEdges at he
          by_cases hth : computeRootSimilarity sqrtFn rootMap info.name
              c.parentNode.name c.parentSimilarity > 1 / 10
          · rw [if_pos hth] at he
            rcases List.mem_cons.mp he with rfl | he2
            · exact ⟨⟨np, List.mem_append_left _ hnp, hnpname⟩, ⟨_, hnew, rfl⟩⟩
            · rcases List.mem_singleton.mp he2 with rfl
              exact ⟨⟨nr, List.mem_append_left _ hnr, hnrname⟩, ⟨_, hnew, rfl⟩⟩
          · rw [if_neg hth] at he
            rcases List.mem_singleton.mp he with rfl
            exact ⟨⟨np, List.mem_append_left _ hnp, hnpname⟩, ⟨_, hnew, rfl⟩⟩
      · intro r hr
        rcases hp r hr with ⟨np2, hnp2, hnp2name⟩
        exact ⟨np2, List.mem_append_left _ hnp2, hnp2name⟩

/-- Shared helper: every successful build of the main builder has every edge
endpoint equal to the name of some node of the result. -/
theorem buildArtistGraph_covered {α : Type} [LinearOrderedField α] (sqrtFn : α → α)
    (env : Env α) (rootArtistName : String) (depth limit : Nat)
    (g : BuildResult α)
    (hbuild : buildArtistGraph sqrtFn env rootArtistName depth limit = some g) :
    ∀ e ∈ g.edges, (∃ n ∈ g.nodes, n.name = e.source) ∧
      ∃ n ∈ g.nodes, n.name = e.target := by
  simp only [buildArtistGraph] at hbuild
  rcases hI : env.getArtistInfo rootArtistName with _ | rootInfo
  · rw [hI] at hbuild
    exact absurd hbuild (by simp)
  rcases hS : env.getSimilarArtists rootArtistName
      (if depth > 1 then min 100 (limit * 4) else limit) with _ | rootSimilar
  · rw [hI, hS] at hbuild
    exact absurd hbuild (by simp)
  rw [hI, hS] at hbuild
  have hg := Option.some.inj hbuild
  subst hg
  set results := (rootSimilar.similar.take (min limit rootSimilar.similar.length)).map
    (fun s => (s, env.getArtistInfo s.name)) with hresults
  set st₀ : BuildState α :=
    { nodes := [createArtistNode rootInfo true 0]
      edges := []
      existingNames := [lowerName rootInfo.name] } with hst₀
  have hroot₀ : ∃ n ∈ st₀.nodes, n.name = rootInfo.name :=
    ⟨createArtistNode rootInfo true 0, List.mem_singleton.mpr rfl, rfl⟩
  have hcov₀ : ∀ e ∈ st₀.edges, (∃ n ∈ st₀.nodes, n.name = e.source) ∧
      ∃ n ∈ st₀.nodes, n.name = e.target := by
    intro e he
    exact absurd he (List.not_mem_nil _)
  have hst1 := firstHop_covered rootInfo results st₀ hroot₀ hcov₀
  by_cases hd : depth > 1
  · rw [if_pos hd]
    set st1 := addFirstHop rootInfo results with hst1def
    set firstHopArtists := (st1.nodes.filter (fun n => !n.isRoot)).take 8 with hfha
    set sel := selectCandidates env st1.existingNames firstHopArtists with hsel
    set results2 := sel.selected.map (fun c => (c, env.getArtistInfo c.artistName))
      with hresults2
    have hpar : ∀ r ∈ results2, ∃ n ∈ st1.nodes, n.name = r.1.parentNode.name := by
      intro r hr
      rcases List.mem_map.mp hr with ⟨c, hc, rfl⟩
      have hcp := selectCandidates_parent env st1.existingNames firstHopArtists c hc
      have hmem : c.parentNode ∈ st1.nodes :=
        List.mem_of_mem_filter (List.mem_of_mem_take hcp)
      exact ⟨c.parentNode, hmem, rfl⟩
    have h2 := secondHop_covered sqrtFn rootInfo
      (buildLookup rootSimilar.similar) results2 st1 hst1.1 hst1.2 hpar
    exact h2.2
  · rw [if_neg hd]
    exact hst1.2

/-- C3 (amended).  Every successful build of the main builder — any depth,
limit, or pattern of per-item failures, autocorrection included — has no
dangling edges: every edge endpoint is the name of some node of the result.
The export-route duplicate builder does not share this property; see the
counterexample. -/
theorem build_no_dangling {α : Type} [LinearOrderedField α] (sqrtFn : α → α)
    (env : Env α) (rootArtistName : String) (depth limit : Nat)
    (g : BuildResult α)
    (hbuild : buildArtistGraph sqrtFn env rootArtistName depth limit = some g) :
    ∀ e ∈ g.edges, (∃ n ∈ g.nodes, n.name = e.source) ∧
      ∃ n ∈ g.nodes, n.name = e.target :=
  buildArtistGraph_covered sqrtFn env rootArtistName depth limit g hbuild

/-- Counterexample for C3 as stated: the export-route duplicate builder, run
on the query `abba` which resolves to `ABBA`, emits an edge whose source
`abba` names no node of the result. -/
theorem export_builder_dangling_edge :
    ∃ g, buildArtistGraphExport envAutoR "abba" 1 5 = some g ∧
      ∃ e ∈ g.edges, ∀ n ∈ g.nodes, n.name ≠ e.source := by
  refine ⟨_, rfl, ?_⟩
  decide

/-- Witness for C3 (amended) on a concrete depth-1 build over ℚ. -/
theorem build_no_dangling_witness :
    ∃ g, buildArtistGraph (fun x : ℚ => x) envHappy "root" 1 5 = some g ∧
      ∀ e ∈ g.edges, (∃ n ∈ g.nodes, n.name = e.source) ∧
        ∃ n ∈ g.nodes, n.name = e.target :=
  ⟨_, rfl, build_no_dangling (fun x : ℚ => x) envHappy "root" 1 5 _ rfl⟩

/-! ## C4: case-insensitive uniqueness of node names -/

/-- The per-source selection fold preserves: selected lowercase names are
recorded in `globalSeen`, avoid `existingNames`, and are pairwise distinct. -/
theorem selectFromSource_fresh {α : Type} [LinearOrderedField α]
    (existingNames : List String) (src : GraphNode) :
    ∀ (entries : List (SimilarEntry α)) (p : SelState α × Nat),
      (∀ c ∈ p.1.selected, lowerName c.artistName ∈ p.1.globalSeen) →
      (∀ c ∈ p.1.selected, lowerName c.artistName ∉ existingNames) →
      ((p.1.selected.map fun c => lowerName c.artistName).Nodup) →
      (∀ c ∈ ((entries.foldl (selectStep existingNames src) p).1).selected,
          lowerName c.artistName ∈
            ((entries.foldl (selectStep existingNames src) p).1).globalSeen) ∧
        (∀ c ∈ ((entries.foldl (selectStep existingNames src) p).1).selected,
          lowerName c.artistName ∉ existingNames) ∧
        ((((entries.foldl (selectStep existingNames src) p).1).selected.map
          fun c => lowerName c.artistName).Nodup) := by
  intro entries
  induction entries with
  | nil => intro p h1 h2 h3; exact ⟨h1, h2, h3⟩
  | cons e rest ih =>
    intro p h1 h2 h3
    rw [List.foldl_cons]
    by_cases hcnt : p.2 ≥ 2
    · have hstep : selectStep existingNames src p e = p := by
        unfold selectStep
        rw [if_pos hcnt]
      rw [hstep]
      exact ih p h1 h2 h3
    · by_cases hcond : lowerName e.name ∉ existingNames ∧
          lowerName e.name ∉ p.1.globalSeen ∧
          lowerName e.name ≠ lowerName src.name
      · have hstep : selectStep existingNames src p e =
            ({ selected := p.1.selected ++
                 [{ artistName := e.name, parentNode := src
                    parentSimilarity := e.matchScore }]
               globalSeen := p.1.globalSeen ++ [lowerName e.name] }, p.2 + 1) := by
          unfold selectStep
          rw [if_neg hcnt, if_pos hcond]
        rw [hstep]
        refine ih _ ?_ ?_ ?_
        · intro c hc
          rcases List.mem_append.mp hc with hc | hc
          · exact List.mem_append_left _ (h1 c hc)
          · rcases List.mem_singleton.mp hc with rfl
            exact List.mem_append_right _ (List.mem_singleton.mpr rfl)
        · intro c hc
          rcases List.mem_append.mp hc with hc | hc
          · exact h2 c hc
          · rcases List.mem_singleton.mp hc with rfl
            exact hcond.1
        · rw [List.map_append, List.nodup_append]
          refine ⟨h3, List.nodup_singleton _, ?_⟩
          intro a ha hb
          rcases List.mem_singleton.mp hb with rfl
          rcases List.mem_map.mp ha with ⟨c, hc, hceq⟩
          have hmem := h1 c hc
          rw [show lowerName c.artistName = lowerName e.name from hceq] at hmem
          exact hcond.2.1 hmem
      · have hstep : selectStep existingNames src p e = p := by
          unfold selectStep
          rw [if_neg hcnt, if_neg hcond]
        rw [hstep]
        exact ih p h1 h2 h3

/-- Selected hop-2 candidates avoid all existing names and are pairwise
distinct after lowercasing. -/
theorem selectCandidates_fresh {α : Type} [LinearOrderedField α] (env : Env α)
    (existingNames : List String) (sources : List GraphNode) :
    (∀ c ∈ (selectCandidates env existingNames sources).selected,
        lowerName c.artistName ∈
          (selectCandidates env existingNames sources).globalSeen) ∧
      (∀ c ∈ (selectCandidates env existingNames sources).selected,
        lowerName c.artistName ∉ existingNames) ∧
      ((selectCandidates env existingNames sources).selected.map
        fun c => lowerName c.artistName).Nodup := by
  unfold selectCandidates
  refine foldl_inv
    (P := fun (acc : SelState α) =>
      (∀ c ∈ acc.selected, lowerName c.artistName ∈ acc.globalSeen) ∧
        (∀ c ∈ acc.selected, lowerName c.artistName ∉ existingNames) ∧
        ((acc.selected.map fun c => lowerName c.artistName).Nodup))
    sources ({ selected := [], globalSeen := [] } : SelState α) ?_ ?_
  · rintro acc src - ⟨h1, h2, h3⟩
    rcases hfetch : env.getSimilarArtists src.name 5 with _ | sd
    · exact ⟨h1, h2, h3⟩
    · exact selectFromSource_fresh existingNames src sd.similar (acc, 0) h1 h2 h3
  · refine ⟨?_, ?_, List.nodup_nil⟩ <;> intro c hc <;>
      exact absurd hc (List.not_mem_nil _)

/-- The first-hop fold keeps `existingNames` equal to the list of lowercase
node names and keeps that list duplicate-free, provided resolution preserves
lowercase names and the processed entries are pairwise distinct. -/
theorem firstHop_nodup {α : Type} [LinearOrderedField α] (rootInfo : ArtistInfo) :
    ∀ (results : List (SimilarEntry α × Option ArtistInfo)) (st : BuildState α),
      st.existingNames = st.nodes.map (fun n => lowerName n.name) →
      ((st.nodes.map fun n => lowerName n.name).Nodup) →
      (∀ r ∈ results, ∀ info, r.2 = some info →
        lowerName info.name = lowerName r.1.name) →
      ((results.map fun r => lowerName r.1.name).Nodup) →
      (∀ r ∈ results,
        lowerName r.1.name ∉ st.nodes.map (fun n => lowerName n.name) ∨
          lowerName r.1.name = lowerName rootInfo.name) →
      (results.foldl (firstHopStep rootInfo) st).existingNames =
          (results.foldl (firstHopStep rootInfo) st).nodes.map
            (fun n => lowerName n.name) ∧
        (((results.foldl (firstHopStep rootInfo) st).nodes.map
          fun n => lowerName n.name).Nodup) := by
  intro results
  induction results with
  | nil => intro st hsync hnd _ _ _; exact ⟨hsync, hnd⟩
  | cons r rest ih =>
    rintro st hsync hnd hres hrnd hfresh
    rw [List.foldl_cons]
    rcases r with ⟨s, _ | info⟩
    · exact ih st hsync hnd
        (fun r hr => hres r (List.mem_cons_of_mem _ hr))
        (List.Nodup.of_cons hrnd)
        (fun r hr => hfresh r (List.mem_cons_of_mem _ hr))
    · have hinfo : lowerName info.name = lowerName s.name :=
        hres (s, some info) (List.mem_cons_self _ _) info rfl
      by_cases hne : lowerName info.name ≠ lowerName rootInfo.name
      · have hstep : firstHopStep rootInfo st (s, some info) =
            { nodes := st.nodes ++ [createArtistNode info false 1]
              edges := st.edges ++
                [{ id := rootInfo.name ++ "->" ++ info.name
                   source := rootInfo.name
                   target := info.name
                   matchScore := s.matchScore
                   weight := s.matchScore }]
              existingNames := st.existingNames ++ [lowerName info.name] } := by
          simp only [firstHopStep, if_pos hne]
        rw [hstep]
        have hmap : (st.nodes ++ [createArtistNode info false 1]).map
            (fun n => lowerName n.name) =
            st.nodes.map (fun n => lowerName n.name) ++ [lowerName info.name] := by
          simp
        have hnotmem : lowerName info.name ∉
            st.nodes.map (fun n => lowerName n.name) := by
          rcases hfresh (s, some info) (List.mem_cons_self _ _) with h | h
          · rwa [hinfo]
          · rw [hinfo] at hne
            exact absurd h hne
        refine ih _ ?_ ?_ ?_ ?_ ?_
        · show st.existingNames ++ [lowerName info.name] = _
          rw [hmap, hsync]
        · rw [hmap, List.nodup_append]
          refine ⟨hnd, List.nodup_singleton _, ?_⟩
          intro a ha hb
          rcases List.mem_singleton.mp hb with rfl
          exact hnotmem ha
        · exact fun r hr => hres r (List.mem_cons_of_mem _ hr)
        · exact List.Nodup.of_cons hrnd
        · intro r hr
          rcases hfresh r (List.mem_cons_of_mem _ hr) with h | h
          · by_cases hrn : lowerName r.1.name = lowerName rootInfo.name
            · exact Or.inr hrn
            · refine Or.inl ?_
              rw [hmap]
              intro hmem
              rcases List.mem_append.mp hmem with hmem | hmem
              · exact h hmem
              · rcases List.mem_singleton.mp hmem with heq
                have hsne : lowerName r.1.name ≠ lowerName s.name := by
                  intro hss
                  have hhead : lowerName s.name ∉ rest.map
                      (fun r => lowerName r.1.name) :=
                    (List.nodup_cons.mp hrnd).1
                  exact hhead (hss ▸ List.mem_map.mpr ⟨r, hr, rfl⟩)
                exact hsne (heq.trans hinfo)
          · exact Or.inr h
      · have hstep : firstHopStep rootInfo st (s, some info) = st := by
          simp only [firstHopStep, if_neg hne]
        rw [hstep]
        exact ih st hsync hnd
          (fun r hr => hres r (List.mem_cons_of_mem _ hr))
          (List.Nodup.of_cons hrnd)
          (fun r hr => hfresh r (List.mem_cons_of_mem _ hr))

/-- The hop-2 result fold keeps lowercase node names duplicate-free, provided
resolution preserves lowercase names and the candidates are fresh and pairwise
distinct. -/
theorem secondHop_nodup {α : Type} [LinearOrderedField α] (sqrtFn : α → α)
    (rootInfo : ArtistInfo) (rootMap : String → Option α) :
    ∀ (results : List (Candidate α × Option ArtistInfo)) (st : BuildState α),
      ((st.nodes.map fun n => lowerName n.name).Nodup) →
      (∀ r ∈ results, ∀ info, r.2 = some info →
        lowerName info.name = lowerName r.1.artistName) →
      ((results.map fun r => lowerName r.1.artistName).Nodup) →
      (∀ r ∈ results,
        lowerName r.1.artistName ∉ st.nodes.map (fun n => lowerName n.name)) →
      (((results.foldl (secondHopStep sqrtFn rootInfo rootMap) st).nodes.map
        fun n => lowerName n.name).Nodup) := by
  intro results
  induction results with
  | nil => intro st hnd _ _ _; exact hnd
  | cons r rest ih =>
    rintro st hnd hres hrnd hfresh
    rw [List.foldl_cons]
    rcases r with ⟨c, _ | info⟩
    · exact ih st hnd
        (fun r hr => hres r (List.mem_cons_of_mem _ hr))
        (List.Nodup.of_cons hrnd)
        (fun r hr => hfresh r (List.mem_cons_of_mem _ hr))
    · have hinfo : lowerName info.name = lowerName c.artistName :=
        hres (c, some info) (List.mem_cons_self _ _) info rfl
      have hstep : secondHopStep sqrtFn rootInfo rootMap st (c, some info) =
          { nodes := st.nodes ++ [createArtistNode info false 2]
            edges := st.edges ++ secondHopEdges rootInfo.name
              (computeRootSimilarity sqrtFn rootMap info.name c.parentNode.name
                c.parentSimilarity) c info
            existingNames := st.existingNames ++ [lowerName info.name] } := by
        simp only [secondHopStep]
      rw [hstep]
      have hmap : (st.nodes ++ [createArtistNode info false 2]).map
          (fun n => lowerName n.name) =
          st.nodes.map (fun n => lowerName n.name) ++ [lowerName info.name] := by
        simp
      refine ih _ ?_ ?_ ?_ ?_
      · rw [hmap, List.nodup_append]
        refine ⟨hnd, List.nodup_singleton _, ?_⟩
        intro a ha hb
        rcases List.mem_singleton.mp hb with rfl
        have := hfresh (c, some info) (List.mem_cons_self _ _)
        rw [← hinfo] at this
        exact this ha
      · exact fun r hr => hres r (List.mem_cons_of_mem _ hr)
      · exact List.Nodup.of_cons hrnd
      · intro r hr
        rw [hmap]
        intro hmem
        rcases List.mem_append.mp hmem with hmem | hmem
        · exact hfresh r (List.mem_cons_of_mem _ hr) hmem
        · rcases List.mem_singleton.mp hmem with heq
          have hhead : lowerName c.artistName ∉ rest.map
              (fun r => lowerName r.1.artistName) :=
            (List.nodup_cons.mp hrnd).1
          exact hhead ((heq.trans hinfo) ▸ List.mem_map.mpr ⟨r, hr, rfl⟩)

/-- C4 (amended).  A successful build has case-insensitively unique node names
provided (a) every successful info fetch preserves the lowercase of the
queried name (no autocorrection divergence) and (b) the processed prefix of
the root similarity list has pairwise distinct lowercase names.  Without
hypothesis (a) the property fails; see the counterexample, in which two
distinct entries resolve to the same artist and the build contains duplicate
nodes. -/
theorem build_nodup_lowercase {α : Type} [LinearOrderedField α] (sqrtFn : α → α)
    (env : Env α) (rootArtistName : String) (depth limit : Nat)
    (rootInfo : ArtistInfo) (rootSimilar : SimilarData α) (g : BuildResult α)
    (hI : env.getArtistInfo rootArtistName = some rootInfo)
    (hS : env.getSimilarArtists rootArtistName
      (if depth > 1 then min 100 (limit * 4) else limit) = some rootSimilar)
    (ha : ∀ q info, env.getArtistInfo q = some info →
      lowerName info.name = lowerName q)
    (hb : ((rootSimilar.similar.take (min limit rootSimilar.similar.length)).map
      (fun s => lowerName s.name)).Nodup)
    (hbuild : buildArtistGraph sqrtFn env rootArtistName depth limit = some g) :
    (g.nodes.map fun n => lowerName n.name).Nodup := by
  simp only [buildArtistGraph] at hbuild
  rw [hI, hS] at hbuild
  have hg := Option.some.inj hbuild
  subst hg
  have hsync₀ :
      ([lowerName rootInfo.name] : List String) =
        ([createArtistNode rootInfo true 0].map fun n => lowerName n.name) := rfl
  have hres : ∀ r ∈ (rootSimilar.similar.take
        (min limit rootSimilar.similar.length)).map
        (fun s => (s, env.getArtistInfo s.name)),
      ∀ info, r.2 = some info → lowerName info.name = lowerName r.1.name := by
    intro r hr info h2
    rcases List.mem_map.mp hr with ⟨s, _, rfl⟩
    exact ha s.name info h2
  have hrnd : (((rootSimilar.similar.take
        (min limit rootSimilar.similar.length)).map
        (fun s => (s, env.getArtistInfo s.name))).map
      fun r => lowerName r.1.name).Nodup := by
    rw [List.map_map]
    exact hb
  have hfresh : ∀ r ∈ (rootSimilar.similar.take
        (min limit rootSimilar.similar.length)).map
        (fun s => (s, env.getArtistInfo s.name)),
      lowerName r.1.name ∉
          ([createArtistNode rootInfo true 0].map fun n => lowerName n.name) ∨
        lowerName r.1.name = lowerName rootInfo.name := by
    intro r _
    by_cases h : lowerName r.1.name = lowerName rootInfo.name
    · exact Or.inr h
    · refine Or.inl ?_
      intro hmem
      exact h (List.mem_singleton.mp hmem)
  have h1 := firstHop_nodup (α := α) rootInfo
    ((rootSimilar.similar.take (min limit rootSimilar.similar.length)).map
      (fun s => (s, env.getArtistInfo s.name)))
    { nodes := [createArtistNode rootInfo true 0]
      edges := []
      existingNames := [lowerName rootInfo.name] }
    hsync₀ (List.nodup_singleton _) hres hrnd hfresh
  by_cases hd : depth > 1
  · rw [if_pos hd]
    have h1' :
        (addFirstHop rootInfo
            ((rootSimilar.similar.take (min limit rootSimilar.similar.length)).map
              (fun s => (s, env.getArtistInfo s.name)))).existingNames =
          ((addFirstHop rootInfo
            ((rootSimilar.similar.take (min limit rootSimilar.similar.length)).map
              (fun s => (s, env.getArtistInfo s.name)))).nodes.map
            fun n => lowerName n.name) ∧
        (((addFirstHop rootInfo
            ((rootSimilar.similar.take (min limit rootSimilar.similar.length)).map
              (fun s => (s, env.getArtistInfo s.name)))).nodes.map
          fun n => lowerName n.name)).Nodup := h1
    have hsel := selectCandidates_fresh env
      (addFirstHop rootInfo
        ((rootSimilar.similar.take (min limit rootSimilar.similar.length)).map
          (fun s => (s, env.getArtistInfo s.name)))).existingNames
      (((addFirstHop rootInfo
        ((rootSimilar.similar.take (min limit rootSimilar.similar.length)).map
          (fun s => (s, env.getArtistInfo s.name)))).nodes.filter
        (fun n => !n.isRoot)).take 8)
    refine secondHop_nodup sqrtFn rootInfo (buildLookup rootSimilar.similar) _ _
      h1'.2 ?_ ?_ ?_
    · intro r hr info h2
      rcases List.mem_map.mp hr with ⟨c, _, rfl⟩
      exact ha c.artistName info h2
    · rw [List.map_map]
      exact hsel.2.2
    · intro r hr
      rcases List.mem_map.mp hr with ⟨c, hc, rfl⟩
      have hnot := hsel.2.1 c hc
      rwa [h1'.1] at hnot
  · rw [if_neg hd]
    exact h1.2

/-- Counterexample for C4 as stated: with two distinct similarity entries
autocorrecting to the same resolved artist `JAY-Z`, the main builder pushes
two hop-1 nodes with the same lowercase name — the hop-1 loop checks the
resolved name only against the root, not against `existingNames`. -/
theorem build_duplicate_nodes :
    ∃ g, buildArtistGraph Real.sqrt envDupR "root" 1 5 = some g ∧
      ¬(g.nodes.map fun n => lowerName n.name).Nodup := by
  refine ⟨_, rfl, ?_⟩
  decide

/-- Witness for C4 (amended) on a concrete build over ℚ whose resolutions
change only letter case. -/
theorem build_nodup_lowercase_witness :
    ∃ g, buildArtistGraph (fun x : ℚ => x) envHappy "root" 1 5 = some g ∧
      (g.nodes.map fun n => lowerName n.name).Nodup := by
  have ha : ∀ q info, envHappy.getArtistInfo q = some info →
      lowerName info.name = lowerName q := by
    intro q info h
    simp only [envHappy] at h
    split_ifs at h with h1 h2 h3
    all_goals (cases h; subst_vars; decide)
  exact ⟨_, rfl, build_nodup_lowercase (fun x : ℚ => x) envHappy "root" 1 5
    (mkInfo "Root")
    { artist := "root", similar := [⟨"a", 9/10⟩, ⟨"x", 7/10⟩, ⟨"b", 6/10⟩] }
    _ rfl rfl ha (by decide) rfl⟩

/-! ## C5: per-candidate fetch failures are isolated -/

/-- Every node produced by the first-hop fold is named after a successfully
fetched artist record. -/
theorem firstHop_names_from {α : Type} [LinearOrderedField α] (env : Env α)
    (rootInfo : ArtistInfo)
    (results : List (SimilarEntry α × Option ArtistInfo)) (st₀ : BuildState α)
    (hres : ∀ r ∈ results, ∀ info, r.2 = some info →
      ∃ q, env.getArtistInfo q = some info)
    (h0 : ∀ n ∈ st₀.nodes, ∃ q info, env.getArtistInfo q = some info ∧
      n.name = info.name) :
    ∀ n ∈ (results.foldl (firstHopStep rootInfo) st₀).nodes,
      ∃ q info, env.getArtistInfo q = some info ∧ n.name = info.name := by
  refine foldl_inv
    (P := fun (st : BuildState α) => ∀ n ∈ st.nodes,
      ∃ q info, env.getArtistInfo q = some info ∧ n.name = info.name)
    results st₀ ?_ h0
  rintro st ⟨s, oi⟩ hmem hP n hn
  cases oi with
  | none => exact hP n hn
  | some info =>
    by_cases h : lowerName info.name ≠ lowerName rootInfo.name
    · simp only [firstHopStep, if_pos h] at hn
      rcases List.mem_append.mp hn with hn | hn
      · exact hP n hn
      · rcases List.mem_singleton.mp hn with rfl
        rcases hres (s, some info) hmem info rfl with ⟨q, hq⟩
        exact ⟨q, info, hq, rfl⟩
    · simp only [firstHopStep, if_neg h] at hn
      exact hP n hn

/-- Every node produced by the hop-2 fold is named after a successfully
fetched artist record. -/
theorem secondHop_names_from {α : Type} [LinearOrderedField α] (env : Env α)
    (sqrtFn : α → α) (rootInfo : ArtistInfo) (rootMap : String → Option α)
    (results : List (Candidate α × Option ArtistInfo)) (st₀ : BuildState α)
    (hres : ∀ r ∈ results, ∀ info, r.2 = some info →
      ∃ q, env.getArtistInfo q = some info)
    (h0 : ∀ n ∈ st₀.nodes, ∃ q info, env.getArtistInfo q = some info ∧
      n.name = info.name) :
    ∀ n ∈ (addSecondHop sqrtFn rootInfo rootMap results st₀).nodes,
      ∃ q info, env.getArtistInfo q = some info ∧ n.name = info.name := by
  unfold addSecondHop
  refine foldl_inv
    (P := fun (st : BuildState α) => ∀ n ∈ st.nodes,
      ∃ q info, env.getArtistInfo q = some info ∧ n.name = info.name)
    results st₀ ?_ h0
  rintro st ⟨c, oi⟩ hmem hP n hn
  cases oi with
  | none => exact hP n hn
  | some info =>
    simp only [secondHopStep] at hn
    rcases List.mem_append.mp hn with hn | hn
    · exact hP n hn
    · rcases List.mem_singleton.mp hn with rfl
      rcases hres (c, some info) hmem info rfl with ⟨q, hq⟩
      exact ⟨q, info, hq, rfl⟩

/-- Every node of a successful build is named after a successfully fetched
artist record (the root included). -/
theorem buildArtistGraph_names_from {α : Type} [LinearOrderedField α]
    (sqrtFn : α → α) (env : Env α) (rootArtistName : String)
    (depth limit : Nat) (g : BuildResult α)
    (hbuild : buildArtistGraph sqrtFn env rootArtistName depth limit = some g) :
    ∀ n ∈ g.nodes, ∃ q info, env.getArtistInfo q = some info ∧
      n.name = info.name := by
  simp only [buildArtistGraph] at hbuild
  rcases hI : env.getArtistInfo rootArtistName with _ | rootInfo
  · rw [hI] at hbuild
    exact absurd hbuild (by simp)
  rcases hS : env.getSimilarArtists rootArtistName
      (if depth > 1 then min 100 (limit * 4) else limit) with _ | rootSimilar
  · rw [hI, hS] at hbuild
    exact absurd hbuild (by simp)
  rw [hI, hS] at hbuild
  have hg := Option.some.inj hbuild
  subst hg
  have hres : ∀ r ∈ (rootSimilar.similar.take
        (min limit rootSimilar.similar.length)).map
        (fun s => (s, env.getArtistInfo s.name)),
      ∀ info, r.2 = some info → ∃ q, env.getArtistInfo q = some info := by
    intro r hr info h2
    rcases List.mem_map.mp hr with ⟨s, _, rfl⟩
    exact ⟨s.name, h2⟩
  have h0 : ∀ n ∈ [createArtistNode rootInfo true 0],
      ∃ q info, env.getArtistInfo q = some info ∧ n.name = info.name := by
    intro n hn
    rcases List.mem_singleton.mp hn with rfl
    exact ⟨rootArtistName, rootInfo, hI, rfl⟩
  have h1 := firstHop_names_from env rootInfo
    ((rootSimilar.similar.take (min limit rootSimilar.similar.length)).map
      (fun s => (s, env.getArtistInfo s.name)))
    { nodes := [createArtistNode rootInfo true 0]
      edges := []
      existingNames := [lowerName rootInfo.name] } hres h0
  by_cases hd : depth > 1
  · rw [if_pos hd]
    refine secondHop_names_from env sqrtFn rootInfo
      (buildLookup rootSimilar.similar) _ _ ?_ h1
    intro r hr info h2
    rcases List.mem_map.mp hr with ⟨c, _, rfl⟩
    exact ⟨c.artistName, h2⟩
  · rw [if_neg hd]
    exact h1

/-- C5 (amended).  When the info fetch for a candidate `X` fails while root
resolution succeeds, the build still returns a result and the failure never
surfaces to the caller; and provided no other successful fetch resolves to
the name `X`, no node of the result is named `X` (case-insensitively) and no
edge references `X`.  The proviso is necessary: without it a different query
can autocorrect to the resolved name `X` and reintroduce it — see the
counterexample. -/
theorem candidate_failure_isolated {α : Type} [LinearOrderedField α]
    (sqrtFn : α → α) (env : Env α) (rootArtistName X : String)
    (depth limit : Nat) (rootInfo : ArtistInfo) (rootSimilar : SimilarData α)
    (hI : env.getArtistInfo rootArtistName = some rootInfo)
    (hS : env.getSimilarArtists rootArtistName
      (if depth > 1 then min 100 (limit * 4) else limit) = some rootSimilar)
    (hX : env.getArtistInfo X = none)
    (halias : ∀ q info, env.getArtistInfo q = some info →
      lowerName info.name ≠ lowerName X) :
    ∃ g, buildArtistGraph sqrtFn env rootArtistName depth limit = some g ∧
      (∀ n ∈ g.nodes, lowerName n.name ≠ lowerName X) ∧
      ∀ e ∈ g.edges, lowerName e.source ≠ lowerName X ∧
        lowerName e.target ≠ lowerName X := by
  have hbuild : ∃ g, buildArtistGraph sqrtFn env rootArtistName depth limit =
      some g := by
    simp only [buildArtistGraph]
    rw [hI, hS]
    exact ⟨_, rfl⟩
  rcases hbuild with ⟨g, hg⟩
  have hnodes : ∀ n ∈ g.nodes, lowerName n.name ≠ lowerName X := by
    intro n hn
    rcases buildArtistGraph_names_from sqrtFn env rootArtistName depth limit g
      hg n hn with ⟨q, info, hq, hname⟩
    rw [hname]
    exact halias q info hq
  refine ⟨g, hg, hnodes, ?_⟩
  intro e he
  rcases buildArtistGraph_covered sqrtFn env rootArtistName depth limit g hg
    e he with ⟨⟨n1, hn1, hm1⟩, ⟨n2, hn2, hm2⟩⟩
  exact ⟨hm1 ▸ hnodes n1 hn1, hm2 ▸ hnodes n2 hn2⟩

/-- Witness for C5: in `envHappy` the fetch of the hop-1 candidate `x` fails;
the build still succeeds and neither nodes nor edges mention `x`. -/
theorem candidate_failure_isolated_witness :
    ∃ g, buildArtistGraph (fun x : ℚ => x) envHappy "root" 1 5 = some g ∧
      (∀ n ∈ g.nodes, lowerName n.name ≠ lowerName "x") ∧
      ∀ e ∈ g.edges, lowerName e.source ≠ lowerName "x" ∧
        lowerName e.target ≠ lowerName "x" := by
  have halias : ∀ q info, envHappy.getArtistInfo q = some info →
      lowerName info.name ≠ lowerName "x" := by
    intro q info h
    simp only [envHappy] at h
    split_ifs at h with h1 h2 h3
    all_goals (cases h; decide)
  exact candidate_failure_isolated (fun x : ℚ => x) envHappy "root" "x" 1 5
    (mkInfo "Root")
    { artist := "root", similar := [⟨"a", 9/10⟩, ⟨"x", 7/10⟩, ⟨"b", 6/10⟩] }
    rfl rfl rfl halias

/-- Counterexample for C5 as stated: in `envAliasR` the info fetch for the
hop-1 candidate `x` fails, the build succeeds, and yet a node named `x` and
an edge targeting `x` are present in the result — the other candidate `y`
autocorrected to the resolved name `x`, and the hop-1 loop checks resolved
names only against the root. -/
theorem candidate_failure_not_isolated :
    envAliasR.getArtistInfo "x" = none ∧
      ∃ g, buildArtistGraph Real.sqrt envAliasR "root" 1 5 = some g ∧
        (∃ n ∈ g.nodes, n.name = "x") ∧ ∃ e ∈ g.edges, e.target = "x" := by
  refine ⟨rfl, _, rfl, ?_, ?_⟩ <;> decide
